import Mathlib

/-!
Shallow embedding of the dtools-containers library.

The immutable sequence classes (Luple in ftuples/wrapped.py, IFTuple in
ftuples/iftuple.py, ITuple in ftuples/inherited.py) wrap or subclass a
Python tuple; we model the element sequence as a Lean List.  Methods that
may raise a Python exception return Except String.  The combinator
functions concat, merge, exhaust and accumulate are imported by the source
from dtools.fp.iterables, a package whose code is not part of this
repository; those four are modelled from the spec and say so in their doc
comments.  Everything else is translated directly from the source files.
-/

/-- The FM enum from dtools.fp.iterables selecting the bind merge policy
(CONCAT, MERGE, EXHAUST). -/
inductive FM where
  | CONCAT
  | MERGE
  | EXHAUST
  deriving DecidableEq

/-- Modelled from the spec: dtools.fp.iterables.concat is not under src/.
Spec section 4.2 CONCAT: output is sub-sequence 0 followed by sub-sequence 1
followed by the rest, each fully consumed in order (flatten in source
order). -/
def concat (ls : List (List α)) : List α := ls.flatten

/-- Length of the shortest sub-sequence; 0 when there are no
sub-sequences. -/
def minLen : List (List α) → Nat
  | [] => 0
  | [l] => l.length
  | l :: rest => min l.length (minLen rest)

/-- Length of the longest sub-sequence; 0 when there are none. -/
def maxLen : List (List α) → Nat
  | [] => 0
  | l :: rest => max l.length (maxLen rest)

/-- Modelled from the spec: dtools.fp.iterables.merge is not under src/.
Spec section 4.2 MERGE: round-robin interleave taking element j from each
sub-sequence in turn, stopping as soon as any sub-sequence is exhausted, so
exactly minLen full rounds are emitted. -/
def merge (ls : List (List α)) : List α :=
  (List.range (minLen ls)).flatMap (fun j => ls.filterMap (fun l => l.get? j))

/-- Modelled from the spec: dtools.fp.iterables.exhaust is not under src/.
Spec section 4.2 EXHAUST: round-robin interleave continuing until all
sub-sequences are exhausted; in round j only the sub-sequences that still
have an element at position j contribute, in order, with no padding. -/
def exhaust (ls : List (List α)) : List α :=
  (List.range (maxLen ls)).flatMap (fun j => ls.filterMap (fun l => l.get? j))

/-- Modelled from the spec: dtools.fp.iterables.accumulate is not under
src/.  Spec section 4.1 accumulate: prefix scan of the running partial
folds; with a start value the output begins with start and has one entry
per input element after it, without one the seed is the first element (an
empty input gives an empty output). -/
def accumulate (s : List α) (f : α → α → α) (start : Option α) : List α :=
  match start with
  | some a => List.scanl f a s
  | none =>
    match s with
    | [] => []
    | x :: xs => List.scanl f x xs

namespace Luple

/-- Luple init from wrapped.py lines 60-66: zero iterable arguments give
the empty sequence, one iterable argument is materialized, more than one
raises ValueError. -/
def init (dss : List (List α)) : Except String (List α) :=
  match dss with
  | [] => Except.ok []
  | [ds] => Except.ok ds
  | _ => Except.error "Luple expects at most 1 iterable argument"

/-- Luple.foldl from wrapped.py lines 103-129.  The source seeds from the
first element only when no start value is given, so the accumulator type
equals the element type there; we embed the homogeneous instance the
source's cast asserts.  The first Option argument is start, the second is
default. -/
def foldl (f : α → α → α) (s : List α) (start dflt : Option α) :
    Except String α :=
  match start with
  | some a => Except.ok (s.foldl f a)
  | none =>
    match s with
    | x :: xs => Except.ok (xs.foldl f x)
    | [] =>
      match dflt with
      | some d => Except.ok d
      | none =>
        Except.error
          "Luple.foldl - Both start and default cannot be None for an empty Luple"

/-- Luple.foldr from wrapped.py lines 131-157: iterates the reversed tuple,
seeding from the start value if given, else from the last element, folding
with the element as the first argument of f. -/
def foldr (f : α → α → α) (s : List α) (start dflt : Option α) :
    Except String α :=
  match start with
  | some a => Except.ok (s.reverse.foldl (fun acc v => f v acc) a)
  | none =>
    match s.reverse with
    | x :: xs => Except.ok (xs.foldl (fun acc v => f v acc) x)
    | [] =>
      match dflt with
      | some d => Except.ok d
      | none =>
        Except.error
          "Luple.foldR - Both start and default cannot be None for an empty Luple"

/-- Luple.copy from wrapped.py lines 159-161: returns Luple(self), which
materializes the same element sequence. -/
def copy (s : List α) : List α := s

/-- The right operand of Luple addition: either another Luple or a value of
some other runtime type, which the source's isinstance check rejects. -/
inductive AddOperand (α : Type) where
  | luple (elts : List α)
  | notLuple

/-- Luple addition from wrapped.py lines 163-168: raises ValueError when the
operand is not a Luple, otherwise returns Luple(concat(self, other)). -/
def add (s : List α) : AddOperand α → Except String (List α)
  | AddOperand.luple t => Except.ok (concat [s, t])
  | AddOperand.notLuple =>
      Except.error "Luple being added to something not a Luple"

/-- Luple.accummulate from wrapped.py lines 176-187 (source spelling):
dispatches to dtools.fp accumulate, passing the start value only when one
was given. -/
def accummulate (s : List α) (f : α → α → α) (start : Option α) : List α :=
  accumulate s f start

/-- Luple.bind from wrapped.py lines 192-211: applies f to every element in
order, then combines the sub-sequences with the selected dtools.fp merge
policy. -/
def bind (s : List α) (f : α → List β) (t : FM) : List β :=
  match t with
  | FM.CONCAT => concat (s.map f)
  | FM.MERGE => merge (s.map f)
  | FM.EXHAUST => exhaust (s.map f)

end Luple

namespace IFTuple

/-- IFTuple init from iftuple.py lines 59-65: same validation as Luple,
raising ValueError for more than one iterable argument. -/
def init (dss : List (List α)) : Except String (List α) :=
  match dss with
  | [] => Except.ok []
  | [ds] => Except.ok ds
  | _ => Except.error "IFTuple expects at most 1 iterable argument"

/-- IFTuple.foldr from iftuple.py lines 130-156, identical in behavior to
Luple.foldr. -/
def foldr (f : α → α → α) (s : List α) (start dflt : Option α) :
    Except String α :=
  match start with
  | some a => Except.ok (s.reverse.foldl (fun acc v => f v acc) a)
  | none =>
    match s.reverse with
    | x :: xs => Except.ok (xs.foldl (fun acc v => f v acc) x)
    | [] =>
      match dflt with
      | some d => Except.ok d
      | none =>
        Except.error
          "IFTuple.foldR - Both start and default cannot be None for an empty IFTuple"

/-- IFTuple.copy from iftuple.py lines 158-160: IFTuple(self) materializes
the same element sequence. -/
def copy (s : List α) : List α := s

end IFTuple

/-- Python runtime values, enough of them for the dynamically typed parts of
inherited.py: integers, tuple-like sequences, and iterator objects.  An
iterator object is represented by the values it would yield; Python
equality between an iterator and an int or a tuple is False, matching the
structural inequality of distinct constructors here (no claim compares two
iterator objects with each other).  On ints and tuples Python equality is
structural, matching the decidable equality below. -/
inductive PyV where
  | int (n : Int)
  | tup (elts : List PyV)
  | iterObj (elts : List PyV)

mutual

/-- Decidable structural equality on Python values. -/
def PyV.decEq : (a b : PyV) → Decidable (a = b)
  | PyV.int a, PyV.int b =>
      if h : a = b then isTrue (by rw [h]) else isFalse (by simp [h])
  | PyV.int _, PyV.tup _ => isFalse (by intro h; cases h)
  | PyV.int _, PyV.iterObj _ => isFalse (by intro h; cases h)
  | PyV.tup _, PyV.int _ => isFalse (by intro h; cases h)
  | PyV.tup _, PyV.iterObj _ => isFalse (by intro h; cases h)
  | PyV.iterObj _, PyV.int _ => isFalse (by intro h; cases h)
  | PyV.iterObj _, PyV.tup _ => isFalse (by intro h; cases h)
  | PyV.tup as, PyV.tup bs =>
      match PyV.decEqList as bs with
      | isTrue h => isTrue (by rw [h])
      | isFalse h => isFalse (by simp [h])
  | PyV.iterObj as, PyV.iterObj bs =>
      match PyV.decEqList as bs with
      | isTrue h => isTrue (by rw [h])
      | isFalse h => isFalse (by simp [h])

/-- Decidable structural equality on lists of Python values. -/
def PyV.decEqList : (as bs : List PyV) → Decidable (as = bs)
  | [], [] => isTrue rfl
  | [], _ :: _ => isFalse (by intro h; cases h)
  | _ :: _, [] => isFalse (by intro h; cases h)
  | a :: as, b :: bs =>
      match PyV.decEq a b, PyV.decEqList as bs with
      | isTrue h1, isTrue h2 => isTrue (by rw [h1, h2])
      | isFalse h1, _ => isFalse (by simp [h1])
      | _, isFalse h2 => isFalse (by simp [h2])

end

instance : DecidableEq PyV := PyV.decEq

namespace ITuple

/-- ITuple new from inherited.py lines 60-62: the method takes the
positional arguments as the varargs tuple ds and evaluates tuple new on
that same tuple, so the constructed ITuple's elements are exactly the
positional arguments themselves; the method has no failure path (the
validating init of the sibling classes is commented out at lines 64-67). -/
def new (ds : List PyV) : Except String (List PyV) := Except.ok ds

/-- ITuple.copy from inherited.py lines 162-164: returns ITuple(self), a
call with self as the single positional argument. -/
def copy (s : List PyV) : Except String (List PyV) := new [PyV.tup s]

/-- ITuple.bind from inherited.py lines 194-213: the combined dtools.fp
iterator is passed to the ITuple constructor as the single positional
argument, so under the varargs constructor the result is the one-element
tuple holding that iterator object, not the combined sequence. -/
def bind (s : List PyV) (f : PyV → List PyV) (t : FM) :
    Except String (List PyV) :=
  match t with
  | FM.CONCAT => new [PyV.iterObj (concat (s.map f))]
  | FM.MERGE => new [PyV.iterObj (merge (s.map f))]
  | FM.EXHAUST => new [PyV.iterObj (exhaust (s.map f))]

/-- ITuple.accummulate from inherited.py lines 178-189: the dtools.fp
accumulate iterator is passed to the ITuple constructor as the single
positional argument, so the result is the one-element tuple holding that
iterator object, not the scan sequence. -/
def accummulate (s : List PyV) (f : PyV → PyV → PyV) (start : Option PyV) :
    Except String (List PyV) :=
  new [PyV.iterObj (accumulate s f start)]

/-- The right operand of ITuple addition: another ITuple or a value of some
other runtime type, which the isinstance check rejects. -/
inductive AddOperand where
  | ituple (elts : List PyV)
  | notITuple

/-- ITuple addition from inherited.py lines 166-170: raises ValueError when
the operand is not an ITuple, otherwise returns ITuple(concat(self,
other)), the one-element tuple holding the concat iterator object. -/
def add (s : List PyV) : AddOperand → Except String (List PyV)
  | AddOperand.ituple t => new [PyV.iterObj (concat [s, t])]
  | AddOperand.notITuple =>
      Except.error "ITuple being added to something not an ITuple"

end ITuple

/-- Lift a list of integers to Python values. -/
def pyIntList (ns : List Int) : List PyV := ns.map PyV.int

/-- The sub-sequence function of the worked examples, n -> range(n), over
Python int values; any non-int argument gives an empty range. -/
def pyRange : PyV → List PyV
  | PyV.int n => (List.range n.toNat).map (fun k => PyV.int (k : Int))
  | _ => []

/-- Python integer addition on PyV values; the claims only apply it to
ints, so any other operand is returned unchanged. -/
def pyAdd : PyV → PyV → PyV
  | PyV.int a, PyV.int b => PyV.int (a + b)
  | a, _ => a

namespace Box

/-- Box.get from box.py lines 90-103, in state-passing form: the pair holds
the call's result and the contents after the call.  The method only reads
the slot: it returns the contained value when present, else the alternate
when one was supplied, else raises ValueError. -/
def get (st : Option α) (alt : Option α) : Except String α × Option α :=
  match st with
  | some v => (Except.ok v, st)
  | none =>
    match alt with
    | some a => (Except.ok a, st)
    | none =>
      (Except.error "Box: get from empty Box with no alt return value provided",
        st)

/-- Box.put from box.py lines 105-115: stores the item when the box is
empty, else raises ValueError leaving the contents alone. -/
def put (st : Option α) (item : α) : Except String Unit × Option α :=
  match st with
  | none => (Except.ok (), some item)
  | some _ => (Except.error "Box: Trying to put an item in an empty Box", st)

/-- Box.pop from box.py lines 117-129: raises ValueError on an empty box,
else returns the contents and leaves the box empty. -/
def pop (st : Option α) : Except String α × Option α :=
  match st with
  | none => (Except.error "Box: Trying to pop an item from an empty Box", st)
  | some v => (Except.ok v, none)

end Box

/-- A Python slice object as written between the brackets: each of start,
stop and step may be omitted. -/
structure Slice where
  start : Option Int
  stop : Option Int
  step : Option Int

/-- CPython's index adjustment for slices (PySlice_AdjustIndices): negative
indices count from the end, then the index is clamped into the valid range,
which for a negative step is shifted down by one. -/
def pyAdjust (n : Int) (negStep : Bool) (i : Int) : Int :=
  if i < 0 then
    if i + n < 0 then (if negStep then -1 else 0) else i + n
  else
    if i ≥ n then (if negStep then n - 1 else n) else i

/-- Number of indices of the arithmetic progression lo, lo + step, ...
strictly before hi (for positive step) or strictly after hi (for negative
step), as CPython computes the length of a slice. -/
def sliceCount (lo hi step : Int) : Nat :=
  if step > 0 then
    (if lo ≥ hi then 0 else ((hi - lo - 1) / step + 1).toNat)
  else
    (if lo ≤ hi then 0 else ((lo - hi - 1) / (-step) + 1).toNat)

/-- Effective step of a slice: an omitted step means 1. -/
def Slice.stepVal (sl : Slice) : Int :=
  match sl.step with
  | none => 1
  | some k => k

/-- Effective lower index of a slice over a sequence of length n: an
omitted start defaults to the first index walked (n - 1 for a negative
step, 0 otherwise), a written one is adjusted as CPython does. -/
def Slice.loVal (sl : Slice) (n : Int) : Int :=
  match sl.start with
  | none => if sl.stepVal < 0 then n - 1 else 0
  | some i => pyAdjust n (decide (sl.stepVal < 0)) i

/-- Effective stopping index of a slice over a sequence of length n: an
omitted stop defaults to one past the last index walked (-1 for a negative
step, n otherwise), a written one is adjusted as CPython does. -/
def Slice.hiVal (sl : Slice) (n : Int) : Int :=
  match sl.stop with
  | none => if sl.stepVal < 0 then -1 else n
  | some i => pyAdjust n (decide (sl.stepVal < 0)) i

/-- Python tuple slicing, the semantics of the expression self at a slice
index in wrapped.py line 100 and iftuple.py line 99: a zero step raises
ValueError, otherwise out-of-range bounds are clamped and the selected
elements are returned, possibly none. -/
def tupleSlice (l : List α) (sl : Slice) : Except String (List α) :=
  if sl.stepVal = 0 then Except.error "slice step cannot be zero"
  else
    Except.ok
      ((List.range
          (sliceCount (sl.loVal l.length) (sl.hiVal l.length) sl.stepVal)).filterMap
        (fun k => l.get? (sl.loVal l.length + sl.stepVal * k).toNat))

namespace Luple

/-- Luple getitem with a slice argument from wrapped.py lines 98-100:
returns Luple(self at the slice), the sliced backing tuple rewrapped as the
same container kind. -/
def getitemSlice (s : List α) (sl : Slice) : Except String (List α) :=
  tupleSlice s sl

end Luple

namespace ITuple

/-- ITuple getitem with a slice argument from inherited.py lines 100-104:
the sliced backing tuple, a real tuple here, is passed to the ITuple
constructor as the single positional argument, so the result is the
one-element tuple holding the sliced tuple. -/
def getitemSlice (s : List PyV) (sl : Slice) : Except String (List PyV) :=
  match tupleSlice s sl with
  | Except.ok r => new [PyV.tup r]
  | Except.error e => Except.error e

end ITuple

section MergeLemmas

variable {β : Type}

/-- Every sub-sequence is at least minLen long. -/
theorem minLen_le {ls : List (List β)} {l : List β} (h : l ∈ ls) :
    minLen ls ≤ l.length := by
  induction ls with
  | nil => cases h
  | cons x rest ih =>
    cases rest with
    | nil =>
      rcases List.mem_cons.mp h with h1 | h1
      · subst h1; simp [minLen]
      · cases h1
    | cons y ys =>
      have e : minLen (x :: y :: ys) = min x.length (minLen (y :: ys)) := rfl
      rcases List.mem_cons.mp h with h1 | h1
      · subst h1; rw [e]; exact min_le_left _ _
      · rw [e]; exact le_trans (min_le_right _ _) (ih h1)

/-- No sub-sequence is longer than maxLen. -/
theorem le_maxLen {ls : List (List β)} {l : List β} (h : l ∈ ls) :
    l.length ≤ maxLen ls := by
  induction ls with
  | nil => cases h
  | cons x rest ih =>
    have e : maxLen (x :: rest) = max x.length (maxLen rest) := rfl
    rcases List.mem_cons.mp h with h1 | h1
    · subst h1; rw [e]; exact le_max_left _ _
    · rw [e]; exact le_trans (ih h1) (le_max_right _ _)

/-- One round of the round-robin: the head sub-sequence contributes exactly
when it still has an element at position j. -/
theorem cntRound_cons (l : List β) (rest : List (List β)) (j : Nat) :
    ((l :: rest).filterMap (fun t => t.get? j)).length
      = (if j < l.length then 1 else 0)
        + (rest.filterMap (fun t => t.get? j)).length := by
  by_cases hj : j < l.length
  · rw [List.filterMap_cons, List.get?_eq_get hj]
    simp [hj]
    omega
  · rw [List.filterMap_cons, List.get?_eq_none.mpr (le_of_not_lt hj)]
    simp [hj]

/-- When every sub-sequence still has an element at position j, the round
contributes one element per sub-sequence. -/
theorem cntRound_full (ls : List (List β)) (j : Nat)
    (hall : ∀ l ∈ ls, j < l.length) :
    (ls.filterMap (fun t => t.get? j)).length = ls.length := by
  induction ls with
  | nil => simp
  | cons x rest ih =>
    rw [cntRound_cons]
    have hx : j < x.length := hall x (List.mem_cons_self _ _)
    rw [if_pos hx, ih (fun l hl => hall l (List.mem_cons_of_mem _ hl))]
    simp [Nat.add_comm]

theorem sum_map_range_const (M N : Nat) :
    ((List.range M).map (fun _ => N)).sum = M * N := by
  induction M with
  | zero => simp
  | succ m ih =>
    rw [List.range_succ, List.map_append, List.sum_append, ih]
    simp [Nat.succ_mul]

theorem sum_map_add_distrib (g h : Nat → Nat) (l : List Nat) :
    (l.map (fun j => g j + h j)).sum = (l.map g).sum + (l.map h).sum := by
  induction l with
  | nil => simp
  | cons x xs ih => simp [ih]; omega

theorem sum_indicator_range (L M : Nat) :
    ((List.range M).map (fun j => if j < L then 1 else 0)).sum = min L M := by
  induction M with
  | zero => simp
  | succ m ih =>
    rw [List.range_succ, List.map_append, List.sum_append, ih]
    by_cases h : m < L
    · simp [h]; omega
    · simp [h]; omega

/-- The merge policy emits minLen full rounds of one element per
sub-sequence. -/
theorem merge_length (ls : List (List β)) :
    (merge ls).length = (minLen ls) * ls.length := by
  rw [merge, List.length_flatMap]
  have e : List.map (List.length ∘ fun j => ls.filterMap (fun l => l.get? j))
        (List.range (minLen ls))
      = List.map (fun _ => ls.length) (List.range (minLen ls)) := by
    apply List.map_congr_left
    intro j hj
    have hjm : j < minLen ls := List.mem_range.mp hj
    exact cntRound_full ls j (fun l hl => lt_of_lt_of_le hjm (minLen_le hl))
  rw [e, sum_map_range_const]

/-- The exhaust policy emits every element of every sub-sequence. -/
theorem exhaust_length (ls : List (List β)) :
    (exhaust ls).length = (ls.map List.length).sum := by
  rw [exhaust, List.length_flatMap]
  have key : ∀ (M : Nat) (ls : List (List β)), (∀ l ∈ ls, l.length ≤ M) →
      ((List.range M).map
          (fun j => (ls.filterMap (fun t => t.get? j)).length)).sum
        = (ls.map List.length).sum := by
    intro M ls
    induction ls with
    | nil => intro _; simp
    | cons x rest ih =>
      intro hall
      have e : List.map
            (fun j => ((x :: rest).filterMap (fun t => t.get? j)).length)
            (List.range M)
          = List.map
              (fun j => (if j < x.length then 1 else 0)
                + (rest.filterMap (fun t => t.get? j)).length)
              (List.range M) := by
        apply List.map_congr_left
        intro j _
        exact cntRound_cons x rest j
      rw [e, sum_map_add_distrib, sum_indicator_range,
        ih (fun l hl => hall l (List.mem_cons_of_mem _ hl))]
      have hx : x.length ≤ M := hall x (List.mem_cons_self _ _)
      rw [min_eq_left hx]
      simp
  have comp : List.map (List.length ∘ fun j => ls.filterMap (fun l => l.get? j))
        (List.range (maxLen ls))
      = List.map (fun j => (ls.filterMap (fun t => t.get? j)).length)
        (List.range (maxLen ls)) := rfl
  rw [comp]
  exact key (maxLen ls) ls (fun l hl => le_maxLen hl)

end MergeLemmas

/-- C1: for Luple, bind with the MERGE policy is the round-robin interleave
that stops as soon as any sub-sequence is exhausted: the output holds
exactly minLen full rounds of one element per sub-sequence, so its length
is the receiver's length times the shortest sub-sequence's length; it is
empty when the receiver is empty or any sub-sequence is empty; and on
s = [4,2,3,5] with f = range it equals [0,0,0,0,1,1,1,1].  The cited
ITuple.bind, however, feeds the merge iterator through the varargs
constructor of inherited.py, so on the same input it returns the 1-element
tuple holding the iterator object, which is not the claimed 8-element
interleave. -/
theorem C1_bind_merge :
    (∀ (α β : Type) (s : List α) (f : α → List β),
        (Luple.bind s f FM.MERGE).length = s.length * minLen (s.map f))
    ∧ (∀ (α β : Type) (f : α → List β),
        Luple.bind ([] : List α) f FM.MERGE = [])
    ∧ (∀ (α β : Type) (s : List α) (f : α → List β) (a : α),
        a ∈ s → f a = [] → Luple.bind s f FM.MERGE = [])
    ∧ Luple.bind [4, 2, 3, 5] (fun n => List.range n) FM.MERGE
        = [0, 0, 0, 0, 1, 1, 1, 1]
    ∧ ITuple.bind (pyIntList [4, 2, 3, 5]) pyRange FM.MERGE
        = Except.ok [PyV.iterObj (pyIntList [0, 0, 0, 0, 1, 1, 1, 1])]
    ∧ ([PyV.iterObj (pyIntList [0, 0, 0, 0, 1, 1, 1, 1])] : List PyV).length = 1
    ∧ ([PyV.iterObj (pyIntList [0, 0, 0, 0, 1, 1, 1, 1])] : List PyV)
        ≠ pyIntList [0, 0, 0, 0, 1, 1, 1, 1] := by
  refine ⟨?_, ?_, ?_, rfl, rfl, rfl, by decide⟩
  · intro α β s f
    show (merge (s.map f)).length = _
    rw [merge_length, List.length_map, Nat.mul_comm]
  · intro α β f
    rfl
  · intro α β s f a ha hfa
    show merge (s.map f) = []
    have hmem : f a ∈ s.map f := List.mem_map_of_mem f ha
    have h0 : minLen (s.map f) = 0 := by
      have hle := minLen_le hmem
      rw [hfa] at hle
      simpa using hle
    rw [merge, h0]
    rfl

/-- Witness for C1: its third conjunct applied at s = [1, 0] and f = range,
whose sub-sequence at element 0 is empty, so the MERGE output is empty. -/
theorem C1_bind_merge_witness :
    ((0 : Nat) ∈ [1, 0] ∧ (fun n => List.range n) (0 : Nat) = ([] : List Nat))
    ∧ Luple.bind [1, 0] (fun n => List.range n) FM.MERGE = [] :=
  ⟨⟨by decide, by decide⟩,
    C1_bind_merge.2.2.1 Nat Nat [1, 0] (fun n => List.range n) 0
      (by decide) (by decide)⟩

/-- C2: for Luple, bind with the EXHAUST policy keeps interleaving
round-robin until every sub-sequence is exhausted, so the output length is
the sum of all sub-sequence lengths; an empty receiver gives an empty
output; and on s = [4,2,3,5] with f = range it equals
[0,0,0,0, 1,1,1,1, 2,2,2, 3,3, 4].  The cited ITuple.bind, however, feeds
the exhaust iterator through the varargs constructor of inherited.py, so on
the same input it returns the 1-element tuple holding the iterator object,
which is not the claimed 14-element interleave. -/
theorem C2_bind_exhaust :
    (∀ (α β : Type) (s : List α) (f : α → List β),
        (Luple.bind s f FM.EXHAUST).length = ((s.map f).map List.length).sum)
    ∧ (∀ (α β : Type) (f : α → List β),
        Luple.bind ([] : List α) f FM.EXHAUST = [])
    ∧ Luple.bind [4, 2, 3, 5] (fun n => List.range n) FM.EXHAUST
        = [0, 0, 0, 0, 1, 1, 1, 1, 2, 2, 2, 3, 3, 4]
    ∧ ITuple.bind (pyIntList [4, 2, 3, 5]) pyRange FM.EXHAUST
        = Except.ok
            [PyV.iterObj
              (pyIntList [0, 0, 0, 0, 1, 1, 1, 1, 2, 2, 2, 3, 3, 4])]
    ∧ ([PyV.iterObj
          (pyIntList [0, 0, 0, 0, 1, 1, 1, 1, 2, 2, 2, 3, 3, 4])] :
        List PyV).length = 1
    ∧ ([PyV.iterObj
          (pyIntList [0, 0, 0, 0, 1, 1, 1, 1, 2, 2, 2, 3, 3, 4])] : List PyV)
        ≠ pyIntList [0, 0, 0, 0, 1, 1, 1, 1, 2, 2, 2, 3, 3, 4] := by
  refine ⟨?_, ?_, rfl, rfl, rfl, by decide⟩
  · intro α β s f
    exact exhaust_length (s.map f)
  · intro α β f
    rfl

/-- C3: for Luple, bind with the default CONCAT policy flattens the
sub-sequences in source order, each fully consumed before the next starts;
on s = [4,2,3,5] with f = range it equals [0,1,2,3, 0,1, 0,1,2,
0,1,2,3,4].  The cited ITuple.bind, however, feeds the concat iterator
through the varargs constructor of inherited.py, so on the same input it
returns the 1-element tuple holding the iterator object, which is not the
claimed 14-element flatten. -/
theorem C3_bind_concat :
    (∀ (α β : Type) (f : α → List β) (x : α) (xs : List α),
        Luple.bind (x :: xs) f FM.CONCAT = f x ++ Luple.bind xs f FM.CONCAT)
    ∧ (∀ (α β : Type) (f : α → List β),
        Luple.bind ([] : List α) f FM.CONCAT = [])
    ∧ Luple.bind [4, 2, 3, 5] (fun n => List.range n) FM.CONCAT
        = [0, 1, 2, 3, 0, 1, 0, 1, 2, 0, 1, 2, 3, 4]
    ∧ ITuple.bind (pyIntList [4, 2, 3, 5]) pyRange FM.CONCAT
        = Except.ok
            [PyV.iterObj
              (pyIntList [0, 1, 2, 3, 0, 1, 0, 1, 2, 0, 1, 2, 3, 4])]
    ∧ ([PyV.iterObj
          (pyIntList [0, 1, 2, 3, 0, 1, 0, 1, 2, 0, 1, 2, 3, 4])] :
        List PyV).length = 1
    ∧ ([PyV.iterObj
          (pyIntList [0, 1, 2, 3, 0, 1, 0, 1, 2, 0, 1, 2, 3, 4])] : List PyV)
        ≠ pyIntList [0, 1, 2, 3, 0, 1, 0, 1, 2, 0, 1, 2, 3, 4] := by
  refine ⟨?_, ?_, rfl, rfl, rfl, by decide⟩
  · intro α β f x xs
    show concat ((x :: xs).map f) = f x ++ concat (xs.map f)
    simp [concat]
  · intro α β f
    rfl

/-- C4: foldl and foldr resolve the initial accumulator by this priority:
a supplied start value wins regardless of emptiness; else a non-empty
sequence seeds from its first (foldl) or last (foldr) element and folds the
rest; else a supplied default is returned; else the call raises ValueError.
The four concrete laws of the spec and their foldr mirrors evaluate as
claimed, for Luple and for the identical IFTuple.foldr. -/
theorem C4_fold_resolution :
    (∀ (α : Type) (f : α → α → α) (s : List α) (d : Option α) (a : α),
        Luple.foldl f s (some a) d = Except.ok (s.foldl f a))
    ∧ (∀ (α : Type) (f : α → α → α) (x : α) (xs : List α) (d : Option α),
        Luple.foldl f (x :: xs) none d = Except.ok (xs.foldl f x))
    ∧ (∀ (α : Type) (f : α → α → α) (d : α),
        Luple.foldl f [] none (some d) = Except.ok d)
    ∧ (∀ (α : Type) (f : α → α → α),
        ∃ msg, Luple.foldl f [] none none = Except.error msg)
    ∧ (∀ (α : Type) (f : α → α → α) (s : List α) (d : Option α) (a : α),
        Luple.foldr f s (some a) d = Except.ok (s.foldr f a))
    ∧ (∀ (α : Type) (f : α → α → α) (xs : List α) (x : α) (d : Option α),
        Luple.foldr f (xs ++ [x]) none d = Except.ok (xs.foldr f x))
    ∧ (∀ (α : Type) (f : α → α → α) (d : α),
        Luple.foldr f [] none (some d) = Except.ok d)
    ∧ (∀ (α : Type) (f : α → α → α),
        ∃ msg, Luple.foldr f [] none none = Except.error msg)
    ∧ (∀ (α : Type) (f : α → α → α) (s : List α) (d : Option α) (a : α),
        IFTuple.foldr f s (some a) d = Except.ok (s.foldr f a))
    ∧ (∀ (α : Type) (f : α → α → α) (xs : List α) (x : α) (d : Option α),
        IFTuple.foldr f (xs ++ [x]) none d = Except.ok (xs.foldr f x))
    ∧ (∀ (α : Type) (f : α → α → α) (d : α),
        IFTuple.foldr f [] none (some d) = Except.ok d)
    ∧ (∀ (α : Type) (f : α → α → α),
        ∃ msg, IFTuple.foldr f [] none none = Except.error msg)
    ∧ Luple.foldl (fun x y => x + y) ([1, 2, 3, 4, 5] : List Int) none none
        = Except.ok 15
    ∧ Luple.foldl (fun x y => x + y) ([1, 2, 3, 4, 5] : List Int) (some 10) none
        = Except.ok 25
    ∧ Luple.foldl (fun x y => x + y) ([] : List Int) none (some 42)
        = Except.ok 42
    ∧ Luple.foldl (fun x y => x + y) ([] : List Int) (some 10) none
        = Except.ok 10
    ∧ Luple.foldr (fun x y => x + y) ([1, 2, 3, 4, 5] : List Int) none none
        = Except.ok 15
    ∧ Luple.foldr (fun x y => x + y) ([1, 2, 3, 4, 5] : List Int) (some 10) none
        = Except.ok 25
    ∧ Luple.foldr (fun x y => x + y) ([] : List Int) none (some 42)
        = Except.ok 42
    ∧ Luple.foldr (fun x y => x + y) ([] : List Int) (some 10) none
        = Except.ok 10 := by
  have hrev : ∀ (α : Type) (xs : List α) (x : α),
      (xs ++ [x]).reverse = x :: xs.reverse := by
    intro α xs x
    simp
  refine ⟨fun α f s d a => rfl, fun α f x xs d => rfl, fun α f d => rfl,
    fun α f => ⟨_, rfl⟩, ?_, ?_, fun α f d => rfl, fun α f => ⟨_, rfl⟩,
    ?_, ?_, fun α f d => rfl, fun α f => ⟨_, rfl⟩,
    rfl, rfl, rfl, rfl, rfl, rfl, rfl, rfl⟩
  · intro α f s d a
    simp [Luple.foldr, List.foldl_reverse]
  · intro α f xs x d
    simp only [Luple.foldr, hrev]
    rw [List.foldl_reverse]
  · intro α f s d a
    simp [IFTuple.foldr, List.foldl_reverse]
  · intro α f xs x d
    simp only [IFTuple.foldr, hrev]
    rw [List.foldl_reverse]

/-- C5: for Luple, accummulate is a prefix scan: without a start value the
output of a non-empty input begins with the input's first element and has
the input's length, an empty input gives an empty output; with a start
value the output begins with start and has length one more than the input;
and the two concrete examples of the spec evaluate as claimed.  The cited
ITuple.accummulate, however, feeds the accumulate iterator through the
varargs constructor of inherited.py, so it always returns the 1-element
tuple holding the iterator object: on [1,2,3,4,5] the result is not the
claimed 5-element scan, and on the empty ITuple it is not empty. -/
theorem C5_accummulate :
    (∀ (α : Type) (f : α → α → α),
        Luple.accummulate ([] : List α) f none = [])
    ∧ (∀ (α : Type) (f : α → α → α) (x : α) (xs : List α),
        (Luple.accummulate (x :: xs) f none).head? = some x
          ∧ (Luple.accummulate (x :: xs) f none).length = (x :: xs).length)
    ∧ (∀ (α : Type) (f : α → α → α) (s : List α) (a : α),
        (Luple.accummulate s f (some a)).head? = some a
          ∧ (Luple.accummulate s f (some a)).length = s.length + 1)
    ∧ Luple.accummulate ([1, 2, 3, 4, 5] : List Int) (fun x y => x + y) none
        = [1, 3, 6, 10, 15]
    ∧ Luple.accummulate ([1, 2, 3, 4, 5] : List Int) (fun x y => x + y)
        (some 10) = [10, 11, 13, 16, 20, 25]
    ∧ ITuple.accummulate (pyIntList [1, 2, 3, 4, 5]) pyAdd none
        = Except.ok [PyV.iterObj (pyIntList [1, 3, 6, 10, 15])]
    ∧ ([PyV.iterObj (pyIntList [1, 3, 6, 10, 15])] : List PyV)
        ≠ pyIntList [1, 3, 6, 10, 15]
    ∧ ITuple.accummulate [] pyAdd none = Except.ok [PyV.iterObj []]
    ∧ ([PyV.iterObj []] : List PyV) ≠ [] := by
  refine ⟨fun α f => rfl, ?_, ?_,
    by norm_num [Luple.accummulate, accumulate, List.scanl],
    by norm_num [Luple.accummulate, accumulate, List.scanl],
    rfl, by decide, rfl, by decide⟩
  · intro α f x xs
    constructor
    · cases xs with
      | nil => rfl
      | cons y ys => rfl
    · show (List.scanl f x xs).length = xs.length + 1
      exact List.length_scanl x xs
  · intro α f s a
    constructor
    · cases s with
      | nil => rfl
      | cons y ys => rfl
    · show (List.scanl f a s).length = s.length + 1
      exact List.length_scanl a s

/-- C6: construction arity.  Luple and IFTuple build empty from zero
arguments, materialize exactly one iterable, and raise ValueError on more
than one; but the ITuple constructor of inherited.py accepts any number of
positional arguments without error and stores the argument tuple itself,
so two iterable arguments are accepted silently and a single iterable
argument is wrapped as one element instead of being materialized. -/
theorem C6_construction :
    (∀ (α : Type), Luple.init ([] : List (List α)) = Except.ok [])
    ∧ (∀ (α : Type) (ds : List α), Luple.init [ds] = Except.ok ds)
    ∧ (∀ (α : Type) (d1 d2 : List α) (rest : List (List α)),
        ∃ msg, Luple.init (d1 :: d2 :: rest) = Except.error msg)
    ∧ (∀ (α : Type), IFTuple.init ([] : List (List α)) = Except.ok [])
    ∧ (∀ (α : Type) (ds : List α), IFTuple.init [ds] = Except.ok ds)
    ∧ (∀ (α : Type) (d1 d2 : List α) (rest : List (List α)),
        ∃ msg, IFTuple.init (d1 :: d2 :: rest) = Except.error msg)
    ∧ ITuple.new [PyV.tup [PyV.int 1, PyV.int 2], PyV.tup [PyV.int 3, PyV.int 4]]
        = Except.ok
            [PyV.tup [PyV.int 1, PyV.int 2], PyV.tup [PyV.int 3, PyV.int 4]]
    ∧ ITuple.new [PyV.tup [PyV.int 1, PyV.int 2]]
        = Except.ok [PyV.tup [PyV.int 1, PyV.int 2]]
    ∧ ([PyV.tup [PyV.int 1, PyV.int 2]] : List PyV) ≠ [PyV.int 1, PyV.int 2] :=
  ⟨fun α => rfl, fun α ds => rfl, fun α d1 d2 rest => ⟨_, rfl⟩,
    fun α => rfl, fun α ds => rfl, fun α d1 d2 rest => ⟨_, rfl⟩,
    rfl, rfl, by decide⟩

/-- C7: Luple addition raises ValueError when the right operand is not a
Luple, and otherwise concatenates the two element sequences in order;
adding the empty Luple on the right is the identity.  The cited ITuple
addition raises on a non-ITuple operand as claimed, but on an ITuple
operand it feeds the concat iterator through the varargs constructor of
inherited.py, returning the 1-element tuple holding the iterator object,
so it is not the concatenation and adding the empty ITuple is not the
identity: (1, 2) + () gives the 1-element wrap, not (1, 2). -/
theorem C7_add :
    (∀ (α : Type) (s t : List α),
        Luple.add s (Luple.AddOperand.luple t) = Except.ok (s ++ t))
    ∧ (∀ (α : Type) (s : List α),
        ∃ msg, Luple.add s Luple.AddOperand.notLuple = Except.error msg)
    ∧ (∀ (α : Type) (s : List α),
        Luple.add s (Luple.AddOperand.luple []) = Except.ok s)
    ∧ (∀ (s : List PyV),
        ∃ msg, ITuple.add s ITuple.AddOperand.notITuple = Except.error msg)
    ∧ ITuple.add (pyIntList [1, 2]) (ITuple.AddOperand.ituple [])
        = Except.ok [PyV.iterObj (pyIntList [1, 2])]
    ∧ ([PyV.iterObj (pyIntList [1, 2])] : List PyV) ≠ pyIntList [1, 2] := by
  refine ⟨?_, fun α s => ⟨_, rfl⟩, ?_, fun s => ⟨_, rfl⟩, rfl, by decide⟩
  · intro α s t
    simp [Luple.add, concat]
  · intro α s
    simp [Luple.add, concat]

/-- C8: copy on the wrapper classes returns an equal value, but ITuple.copy
of inherited.py calls the constructor with self as a single positional
argument, so its result is the one-element tuple holding the original
rather than an equal sequence: on the two-element ITuple (1, 2) the copy is
((1, 2),), which is not equal to (1, 2). -/
theorem C8_copy :
    (∀ (α : Type) (s : List α), Luple.copy s = s)
    ∧ (∀ (α : Type) (s : List α), IFTuple.copy s = s)
    ∧ ITuple.copy [PyV.int 1, PyV.int 2]
        = Except.ok [PyV.tup [PyV.int 1, PyV.int 2]]
    ∧ ([PyV.tup [PyV.int 1, PyV.int 2]] : List PyV) ≠ [PyV.int 1, PyV.int 2] :=
  ⟨fun α s => rfl, fun α s => rfl, rfl, by decide⟩

/-- Totality of Python tuple slicing away from the zero step: the result is
a normal return whose elements all come from the sliced sequence. -/
theorem tupleSlice_total {α : Type} (l : List α) (sl : Slice)
    (h : sl.step ≠ some 0) :
    ∃ r, tupleSlice l sl = Except.ok r ∧ ∀ x ∈ r, x ∈ l := by
  have hne : sl.stepVal ≠ 0 := by
    rw [Slice.stepVal]
    cases hs : sl.step with
    | none => norm_num
    | some k =>
      intro hk
      simp at hk
      apply h
      rw [hs, hk]
  refine ⟨(List.range
        (sliceCount (sl.loVal l.length) (sl.hiVal l.length)
          sl.stepVal)).filterMap
      (fun k => l.get? (sl.loVal l.length + sl.stepVal * k).toNat), ?_, ?_⟩
  · simp only [tupleSlice]
    rw [if_neg hne]
  · intro x hx
    rcases List.mem_filterMap.mp hx with ⟨k, _, hk⟩
    exact List.get?_mem hk

/-- C9 counterexample: the claim quantifies over every (start, stop, step)
triple, but a zero step makes slicing raise ValueError, here on the
3-element sequence [0, 1, 2] with the slice 0:5:0. -/
theorem C9_slice_counterexample :
    Luple.getitemSlice ([0, 1, 2] : List Int) ⟨some 0, some 5, some 0⟩
      = Except.error "slice step cannot be zero" := rfl

/-- C9 amended: for every slice triple whose step is not zero, slicing
never raises on either cited container kind: on Luple it returns normally
with every result element drawn from the receiver (out-of-range bounds
clamp instead of raising), and on ITuple it also returns normally (the
sliced tuple is rewrapped through the varargs constructor as a 1-element
nest, but no exception escapes); on an 11-element sequence of either kind
the slice 8:130 equals the slice 8:11. -/
theorem C9_slice_never_raises :
    (∀ (α : Type) (l : List α) (sl : Slice), sl.step ≠ some 0 →
        ∃ r, Luple.getitemSlice l sl = Except.ok r ∧ ∀ x ∈ r, x ∈ l)
    ∧ (∀ (s : List PyV) (sl : Slice), sl.step ≠ some 0 →
        ∃ r, ITuple.getitemSlice s sl = Except.ok r)
    ∧ Luple.getitemSlice
          ([0, 10, 20, 30, 40, 50, 60, 70, 80, 90, 100] : List Int)
          ⟨some 8, some 130, none⟩
        = Luple.getitemSlice
          ([0, 10, 20, 30, 40, 50, 60, 70, 80, 90, 100] : List Int)
          ⟨some 8, some 11, none⟩
    ∧ ITuple.getitemSlice
          (pyIntList [0, 10, 20, 30, 40, 50, 60, 70, 80, 90, 100])
          ⟨some 8, some 130, none⟩
        = ITuple.getitemSlice
          (pyIntList [0, 10, 20, 30, 40, 50, 60, 70, 80, 90, 100])
          ⟨some 8, some 11, none⟩ := by
  refine ⟨?_, ?_, rfl, rfl⟩
  · intro α l sl h
    exact tupleSlice_total l sl h
  · intro s sl h
    obtain ⟨r, hr, _⟩ := tupleSlice_total s sl h
    refine ⟨[PyV.tup r], ?_⟩
    simp only [ITuple.getitemSlice]
    rw [hr]
    rfl

/-- Witness for C9 amended, at the 11-element sequence and the out-of-range
slice 8:130, whose step (omitted, meaning 1) is not zero, for both cited
container kinds. -/
theorem C9_slice_never_raises_witness :
    (Slice.mk (some 8) (some 130) none).step ≠ some 0
    ∧ (∃ r, Luple.getitemSlice
          ([0, 10, 20, 30, 40, 50, 60, 70, 80, 90, 100] : List Int)
          ⟨some 8, some 130, none⟩ = Except.ok r
        ∧ ∀ x ∈ r,
            x ∈ ([0, 10, 20, 30, 40, 50, 60, 70, 80, 90, 100] : List Int))
    ∧ (∃ r, ITuple.getitemSlice
          (pyIntList [0, 10, 20, 30, 40, 50, 60, 70, 80, 90, 100])
          ⟨some 8, some 130, none⟩ = Except.ok r) :=
  ⟨by decide,
    C9_slice_never_raises.1 Int [0, 10, 20, 30, 40, 50, 60, 70, 80, 90, 100]
      ⟨some 8, some 130, none⟩ (by decide),
    C9_slice_never_raises.2.1
      (pyIntList [0, 10, 20, 30, 40, 50, 60, 70, 80, 90, 100])
      ⟨some 8, some 130, none⟩ (by decide)⟩

/-- C10: Box operations are atomic on failure and get is read-only: get
always leaves the contents unchanged whether it succeeds or fails, a put on
a full box and a pop or alternate-less get on an empty box fail leaving the
contents unchanged, and the state changes exactly on a successful put
(empty to full) or a successful pop (full to empty). -/
theorem C10_box_atomicity :
    (∀ (α : Type) (st alt : Option α), (Box.get st alt).2 = st)
    ∧ (∀ (α : Type) (v : α) (alt : Option α),
        Box.get (some v) alt = (Except.ok v, some v))
    ∧ (∀ (α : Type) (a : α), Box.get none (some a) = (Except.ok a, none))
    ∧ (∀ (α : Type),
        ∃ msg, Box.get (none : Option α) none = (Except.error msg, none))
    ∧ (∀ (α : Type) (v x : α),
        ∃ msg, Box.put (some v) x = (Except.error msg, some v))
    ∧ (∀ (α : Type) (x : α), Box.put none x = (Except.ok (), some x))
    ∧ (∀ (α : Type),
        ∃ msg, Box.pop (none : Option α) = (Except.error msg, none))
    ∧ (∀ (α : Type) (v : α), Box.pop (some v) = (Except.ok v, none)) := by
  refine ⟨?_, fun α v alt => rfl, fun α a => rfl, fun α => ⟨_, rfl⟩,
    fun α v x => ⟨_, rfl⟩, fun α x => rfl, fun α => ⟨_, rfl⟩, fun α v => rfl⟩
  intro α st alt
  cases st with
  | some v => rfl
  | none =>
    cases alt with
    | some a => rfl
    | none => rfl
